import Mathlib

/-!
Verification of the fx_history_updater repository's FX indicator,
cross-rate, signal and trend logic against its specification.

Price series are modelled over exact rationals; a pandas NaN (a missing
value produced by an unfilled rolling window, an unaligned index entry or
an out-of-window diff) is modelled as the value `none` of an
`Option` type, and Python exceptions raised by a modelled function are
represented by an `Option`-valued result being `none`.
-/

/-- Banker's rounding of a rational to the nearest integer, ties to even,
modelling Python's built-in round applied to an exact value. -/
def roundHalfEven (q : ℚ) : ℤ :=
  if q - ⌊q⌋ < 1/2 then ⌊q⌋
  else if (1 : ℚ)/2 < q - ⌊q⌋ then ⌊q⌋ + 1
  else if ⌊q⌋ % 2 = 0 then ⌊q⌋ else ⌊q⌋ + 1

/-- Python round(q, d) on exact rational values. -/
def pyRound (q : ℚ) (d : ℕ) : ℚ := (roundHalfEven (q * 10 ^ d) : ℚ) / 10 ^ d

/-- Last entry of a pandas rolling(w).mean() over a NaN-free series:
the mean of the last w values when at least w values exist (the default
min_periods equals the window), and NaN otherwise. -/
def rollMeanLast (w : ℕ) (xs : List ℚ) : Option ℚ :=
  if w ≤ xs.length ∧ 0 < w then some ((xs.drop (xs.length - w)).sum / (w : ℚ))
  else none

/-- Pandas elementwise multiplication of two indexed Close series
(update_forex_data.py line 122): indices are aligned on the sorted union
of the two indexes, the product is taken where both sides have a value,
and NaN (`none`) is produced where only one side has a value. -/
def seriesMul : List (ℕ × ℚ) → List (ℕ × ℚ) → List (ℕ × Option ℚ)
  | [], [] => []
  | [], y :: ys => (y.1, none) :: seriesMul [] ys
  | x :: xs, [] => (x.1, none) :: seriesMul xs []
  | (t₁, v₁) :: xs, (t₂, v₂) :: ys =>
    if t₁ < t₂ then (t₁, none) :: seriesMul xs ((t₂, v₂) :: ys)
    else if t₂ < t₁ then (t₂, none) :: seriesMul ((t₁, v₁) :: xs) ys
    else (t₁, some (v₁ * v₂)) :: seriesMul xs ys
termination_by xs ys => xs.length + ys.length

/-- In-place reciprocal of every Close value of a leg
(update_forex_data.py lines 96 and 113). -/
def invertCloses (xs : List (ℕ × ℚ)) : List (ℕ × ℚ) :=
  xs.map fun p => (p.1, p.2⁻¹)

/-- The data-model invariant on an indexed series: timestamps are
strictly ascending (hence unique). -/
def SortedKeys (xs : List (ℕ × ℚ)) : Prop :=
  List.Pairwise (fun a b => a.1 < b.1) xs

instance (xs : List (ℕ × ℚ)) : Decidable (SortedKeys xs) := by
  unfold SortedKeys; infer_instance

/-- Cross-rate composition step of calculate_cross_rate
(update_forex_data.py line 122), applied once both legs have been
fetched and normalised: the base leg is held in base/USD orientation and
the quote leg in USD/quote orientation, and the two Close columns are
multiplied elementwise with pandas index alignment. -/
def calculate_cross_rate (base_hist quote_hist : List (ℕ × ℚ)) :
    List (ℕ × Option ℚ) :=
  seriesMul base_hist quote_hist

/-- Last entry of a simple moving average with the dynamically shrunk
window used by calculate_signals (update_forex_data.py lines 134-136):
rolling(window = min(W, len(hist))).mean().iloc[-1]. -/
def maW (W : ℕ) (xs : List ℚ) : Option ℚ :=
  rollMeanLast (min W xs.length) xs

/-- Gain series of calculate_signals (update_forex_data.py line 140):
the positive part of the one-step difference of the closes, with the
leading NaN of diff() replaced by 0 because NaN > 0 evaluates False in
the where clause. -/
def gainSeries : List ℚ → List ℚ
  | [] => []
  | x :: xs => 0 :: List.zipWith (fun a b => max (b - a) 0) (x :: xs) xs

/-- Loss series of calculate_signals (update_forex_data.py line 141):
the magnitude of the negative part of the one-step difference, with the
leading NaN of diff() replaced by 0. -/
def lossSeries : List ℚ → List ℚ
  | [] => []
  | x :: xs => 0 :: List.zipWith (fun a b => max (a - b) 0) (x :: xs) xs

/-- RSI value of calculate_signals (update_forex_data.py lines 139-143):
rolling 14-mean of gains over rolling 14-mean of losses; the Python
conditional tests loss.iloc[-1] != 0, which is True for a NaN loss, so a
NaN loss or gain propagates to a NaN RSI, while a zero loss yields the
neutral value 50. -/
def rsiLast (xs : List ℚ) : Option ℚ :=
  let g := rollMeanLast 14 (gainSeries xs)
  let l := rollMeanLast 14 (lossSeries xs)
  if l = some 0 then some 50
  else
    match g, l with
    | some gv, some lv => some (100 - 100 / (1 + gv / lv))
    | _, _ => none

/-- Last entry of pandas ewm(span, adjust=False).mean() over a NaN-free
series (update_forex_data.py lines 147-148): the recurrence seeded from
the first value with smoothing factor 2/(span+1). -/
def ewmLast (span : ℕ) : List ℚ → ℚ
  | [] => 0
  | x :: xs =>
    xs.foldl
      (fun y v => (1 - 2 / ((span : ℚ) + 1)) * y + (2 / ((span : ℚ) + 1)) * v) x

/-- MACD value of calculate_signals (update_forex_data.py lines
146-151): the difference of the 12- and 26-span exponential moving
averages at the last sample when at least 26 samples exist, and the
literal 0.0 otherwise. -/
def macdVal (closes : List ℚ) : ℚ :=
  if 26 ≤ closes.length then ewmLast 12 closes - ewmLast 26 closes else 0

/-- Python float comparison a > b where either side may be NaN: a
comparison involving NaN evaluates False. -/
def ogt : Option ℚ → Option ℚ → Bool
  | some x, some y => decide (y < x)
  | _, _ => false

/-- Python float comparison a < b where either side may be NaN: a
comparison involving NaN evaluates False. -/
def olt : Option ℚ → Option ℚ → Bool
  | some x, some y => decide (x < y)
  | _, _ => false

/-- Short-term signal rules of calculate_signals (update_forex_data.py
lines 154-163), evaluated top to bottom with NaN-aware comparisons. -/
def classifyShort (rsi ma5 ma20 : Option ℚ) : String :=
  if ogt rsi (some 70) && ogt ma5 ma20 then "큰 하락 가능"
  else if olt rsi (some 30) && olt ma5 ma20 then "큰 상승 가능"
  else if ogt ma5 ma20 then "하락 가능"
  else if olt ma5 ma20 then "상승 가능"
  else "횡보"

/-- Long-term signal rules of calculate_signals (update_forex_data.py
lines 165-174); the MACD input is an ordinary number because the code
assigns it the literal 0.0 for short series. -/
def classifyLong (macd : ℚ) (ma20 ma60 : Option ℚ) : String :=
  if decide (0 < macd) && ogt ma20 ma60 then "강한 상승 가능"
  else if decide (macd < 0) && olt ma20 ma60 then "강한 하락 가능"
  else if 0 < macd then "상승 가능"
  else if macd < 0 then "하락 가능"
  else "횡보"

/-- Signal computation of calculate_signals (update_forex_data.py lines
130-185). On the empty series the Python body raises (a zero rolling
window and iloc[-1] on an empty frame are errors) and the blanket except
returns the failure record; on a non-empty NaN-free series no statement
of the body raises, so the try branch returns the classified signals. -/
def calculate_signals (hist : List ℚ) : String × String :=
  if hist.isEmpty then ("신호 계산 실패", "신호 계산 실패")
  else
    (classifyShort (rsiLast hist) (maW 5 hist) (maW 20 hist),
     classifyLong (macdVal hist) (maW 20 hist) (maW 60 hist))

/-- Output record of get_forex_data, without the constant symbol and
wall-clock timestamp fields. -/
structure ForexRecord where
  lastValue : ℚ
  changePercent : ℚ
  signal_short : String
  signal_long : String
deriving DecidableEq, Repr

/-- Terminal-failure sentinel record of get_forex_data
(update_forex_data.py lines 227-234). -/
def noDataRecord : ForexRecord :=
  { lastValue := 0, changePercent := 0,
    signal_short := "데이터 없음", signal_long := "데이터 없음" }

/-- Per-pair evaluation of get_forex_data (update_forex_data.py lines
187-234) as a function of the resolved history: the argument is `none`
when both the direct fetch and the cross-rate composition failed, and
the close series otherwise. A history of fewer than 2 samples raises
ValueError, which the blanket except turns into the sentinel record. -/
def get_forex_data (hist : Option (List ℚ)) : ForexRecord :=
  match hist with
  | some cs =>
    if 1 < cs.length then
      let last := cs.getLastD 0
      let prev := cs.getD (cs.length - 2) 0
      let s := calculate_signals cs
      { lastValue := pyRound last 2,
        changePercent := pyRound ((last - prev) / prev * 100) 2,
        signal_short := s.1, signal_long := s.2 }
    else noDataRecord
  | none => noDataRecord

/-- Outcome of one yfinance fetch inside get_ticker_data: either a close
series or a raised exception. -/
inductive FetchOutcome where
  | ok (closes : List ℚ)
  | err
deriving Repr

/-- Retry loop body of get_ticker_data (update_forex_data.py lines
62-79), parameterised by an oracle giving the outcome of each attempt.
Returns the accepted history together with the total seconds slept: an
attempt whose history has more than one sample returns it immediately;
an empty or one-sample history sleeps 2 seconds and retries; an
exception sleeps 2 seconds unless it happened on the final attempt. -/
def tickerLoop (f : ℕ → FetchOutcome) : ℕ → ℕ → (Option (List ℚ) × ℕ)
  | 0, _ => (none, 0)
  | fuel + 1, attempt =>
    match f attempt with
    | .ok h =>
      if 1 < h.length then (some h, 0)
      else
        let r := tickerLoop f fuel (attempt + 1)
        (r.1, r.2 + 2)
    | .err =>
      let r := tickerLoop f fuel (attempt + 1)
      (r.1, r.2 + (if attempt < 2 then 2 else 0))

/-- get_ticker_data (update_forex_data.py lines 60-79): at most 3
attempts starting from attempt 0. -/
def get_ticker_data (f : ℕ → FetchOutcome) : Option (List ℚ) × ℕ :=
  tickerLoop f 3 0

/-- calculate_moving_average of fx_updater.py (lines 49-60): the empty
list when the data is shorter than the window, and otherwise the list of
all window means in chronological order. -/
def calculate_moving_average (data : List ℚ) (window : ℕ) : List ℚ :=
  if data.length < window then []
  else
    (List.range (data.length - window + 1)).map
      fun i => ((data.drop i).take window).sum / (window : ℚ)

/-- Forecast for one horizon of calculate_trend_prediction, without the
constant target_period field. -/
structure Forecast where
  direction : String
  confidence : ℚ
deriving DecidableEq, Repr

/-- Pair of horizon forecasts returned by calculate_trend_prediction. -/
structure TrendPrediction where
  short_term : Forecast
  long_term : Forecast
deriving DecidableEq, Repr

/-- Python negative indexing closes[-k]: the k-th element from the end
when k is between 1 and the length, and a raised IndexError, modelled as
`none`, otherwise. -/
def negIdx (xs : List ℚ) (k : ℕ) : Option ℚ :=
  if 0 < k ∧ k ≤ xs.length then xs[xs.length - k]? else none

/-- calculate_trend_prediction (update_forex_history.py lines 10-46) on
the close values exactly as passed by its caller (newest first). The
function body raises IndexError as soon as closes[-10] or closes[-60]
is out of range, which happens exactly when fewer than 60 samples exist;
the raised case is `none`. -/
def calculate_trend_prediction (closes : List ℚ) : Option TrendPrediction :=
  match negIdx closes 1, negIdx closes 10, negIdx closes 60 with
  | some cLast, some c10, some c60 =>
    let stc := (cLast - c10) / c10 * 100
    let ltc := (cLast - c60) / c60 * 100
    some
      { short_term :=
          { direction := if 1 < stc then "상승" else if stc < -1 then "하락" else "횡보",
            confidence := pyRound (min (|stc| * 10) 100) 1 },
        long_term :=
          { direction := if 2 < ltc then "상승" else if ltc < -2 then "하락" else "횡보",
            confidence := pyRound (min (|ltc| * 5) 100) 1 } }
  | _, _, _ => none

/-- Both-horizons-unknown default returned by the except branch of
get_forex_history (update_forex_history.py lines 110-126). -/
def unknownTrend : TrendPrediction :=
  { short_term := { direction := "알 수 없음", confidence := 0 },
    long_term := { direction := "알 수 없음", confidence := 0 } }

/-- Trend part of get_forex_history (update_forex_history.py lines
58-126) as a function of the chronologically ascending close series:
the history is re-sorted newest first (sort_index(ascending=False))
before calculate_trend_prediction is called on it, and any exception it
raises is caught and replaced by the both-unknown default. -/
def get_forex_history_trend (ascCloses : List ℚ) : TrendPrediction :=
  (calculate_trend_prediction ascCloses.reverse).getD unknownTrend

/-- First-match evaluation of an ordered rule table, the evaluation
order the specification prescribes for the signal classifier. -/
def firstMatch : List (Bool × String) → String
  | [] => "횡보"
  | (c, s) :: rest => if c then s else firstMatch rest

/-- Short-term rule table in the precedence order of the specification,
section 4.4. -/
def shortRules (rsi ma5 ma20 : Option ℚ) : List (Bool × String) :=
  [(ogt rsi (some 70) && ogt ma5 ma20, "큰 하락 가능"),
   (olt rsi (some 30) && olt ma5 ma20, "큰 상승 가능"),
   (ogt ma5 ma20, "하락 가능"),
   (olt ma5 ma20, "상승 가능"),
   (true, "횡보")]

/-- Long-term rule table in the precedence order of the specification,
section 4.4. -/
def longRules (macd : ℚ) (ma20 ma60 : Option ℚ) : List (Bool × String) :=
  [(decide (0 < macd) && ogt ma20 ma60, "강한 상승 가능"),
   (decide (macd < 0) && olt ma20 ma60, "강한 하락 가능"),
   (decide (0 < macd), "상승 가능"),
   (decide (macd < 0), "하락 가능"),
   (true, "횡보")]

/-- Exponential moving average series as the specification describes it:
seeded from the first value, each later entry mixes the new sample into
the previous entry with weight alpha, no bias adjustment. The first
argument of degree is the running EMA value. -/
def emaSeries (alpha : ℚ) (y : ℚ) : List ℚ → List ℚ
  | [] => [y]
  | x :: xs => y :: emaSeries alpha (alpha * x + (1 - alpha) * y) xs

/-- MACD at the last sample as the specification words it: the last
entry of the 12-period EMA series minus the last entry of the 26-period
EMA series, with smoothing factors 2/(12+1) and 2/(26+1). -/
def macdSpecLast (closes : List ℚ) : ℚ :=
  match closes with
  | [] => 0
  | x :: xs =>
    ((emaSeries (2/13) x xs).getLastD 0) - ((emaSeries (2/27) x xs).getLastD 0)

/-! Helper lemmas. -/

lemma emaSeries_getLastD (alpha : ℚ) (xs : List ℚ) :
    ∀ y d, (emaSeries alpha y xs).getLastD d =
      xs.foldl (fun y x => alpha * x + (1 - alpha) * y) y := by
  induction xs with
  | nil => intro y d; rfl
  | cons x xs ih =>
    intro y d
    show (y :: emaSeries alpha (alpha * x + (1 - alpha) * y) xs).getLastD d = _
    rw [List.getLastD_cons, ih, List.foldl_cons]

lemma foldl_step_eq (alpha : ℚ) (xs : List ℚ) :
    ∀ y, xs.foldl (fun y v => (1 - alpha) * y + alpha * v) y =
      xs.foldl (fun y x => alpha * x + (1 - alpha) * y) y := by
  induction xs with
  | nil => intro y; rfl
  | cons x xs ih =>
    intro y
    simp only [List.foldl_cons]
    rw [ih]
    congr 1
    ring

/-- C2. Corrected: the bidirectional reading fails because a computed
MACD can also be 0 (for example on a constant series of length 26); what
holds is that MACD is the literal 0 exactly by definition when the
length is below 26, and otherwise it is the difference at the last
sample of the 12- and 26-period exponential moving averages with
smoothing factor 2/(N+1), seeded from the first value, no bias
adjustment. -/
theorem C2_macd_amended (closes : List ℚ) :
    macdVal closes = if 26 ≤ closes.length then macdSpecLast closes else 0 := by
  unfold macdVal macdSpecLast
  split
  · rename_i h
    cases closes with
    | nil => simp at h
    | cons x xs =>
      show ewmLast 12 (x :: xs) - ewmLast 26 (x :: xs) =
        (emaSeries (2/13) x xs).getLastD 0 - (emaSeries (2/27) x xs).getLastD 0
      rw [emaSeries_getLastD, emaSeries_getLastD, ← foldl_step_eq, ← foldl_step_eq]
      norm_num [ewmLast]
  · rfl

/-- C2. A constant series of length 26 has a computed MACD equal to 0
even though its length is not below 26, refuting the claimed
equivalence between a zero MACD and a short series. -/
theorem C2_macd_counterexample :
    macdVal (List.replicate 26 1) = 0 ∧ 26 ≤ (List.replicate 26 (1 : ℚ)).length := by
  constructor
  · norm_num [macdVal, ewmLast, List.replicate, List.foldl]
  · simp

/-- C5. Confirmed: both classifiers equal the first-match evaluation of
their ordered rule tables (so precedence is top to bottom with the first
matching rule winning, and the function is total and deterministic by
construction), and at the boundary RSI exactly 70 the first rule does
not fire, leaving the plain moving-average comparisons to decide. -/
theorem C5_classifier_precedence (r m5 m20 m60 : Option ℚ) (mc : ℚ) :
    classifyShort r m5 m20 = firstMatch (shortRules r m5 m20) ∧
    classifyLong mc m20 m60 = firstMatch (longRules mc m20 m60) ∧
    classifyShort (some 70) m5 m20 =
      (if ogt m5 m20 then "하락 가능" else if olt m5 m20 then "상승 가능" else "횡보") := by
  refine ⟨?_, ?_, ?_⟩
  · simp [classifyShort, firstMatch, shortRules]
  · simp [classifyLong, firstMatch, longRules]
  · norm_num [classifyShort, ogt, olt]

lemma tickerLoop_sleep_le (f : ℕ → FetchOutcome) :
    ∀ fuel a, (tickerLoop f fuel a).2 ≤ 2 * fuel := by
  intro fuel
  induction fuel with
  | zero => intro a; exact Nat.zero_le _
  | succ n ih =>
    intro a
    have hrec := ih (a + 1)
    simp only [tickerLoop]
    cases f a with
    | ok h =>
      dsimp only
      by_cases hl : 1 < h.length
      · rw [if_pos hl]
        exact Nat.zero_le _
      · rw [if_neg hl]
        show (tickerLoop f n (a + 1)).2 + 2 ≤ 2 * (n + 1)
        omega
    | err =>
      dsimp only
      by_cases ha : a < 2
      · rw [if_pos ha]
        show (tickerLoop f n (a + 1)).2 + 2 ≤ 2 * (n + 1)
        omega
      · rw [if_neg ha]
        show (tickerLoop f n (a + 1)).2 + 0 ≤ 2 * (n + 1)
        omega

lemma tickerLoop_some_len (f : ℕ → FetchOutcome) :
    ∀ fuel a h, (tickerLoop f fuel a).1 = some h → 1 < h.length := by
  intro fuel
  induction fuel with
  | zero => intro a h hh; exact nomatch hh
  | succ n ih =>
    intro a h hh
    simp only [tickerLoop] at hh
    cases hfa : f a with
    | ok hist =>
      simp only [hfa] at hh
      by_cases hl : 1 < hist.length
      · rw [if_pos hl] at hh
        have hhist : hist = h := by simpa using hh
        exact hhist ▸ hl
      · rw [if_neg hl] at hh
        exact ih (a + 1) h (by simpa using hh)
    | err =>
      simp only [hfa] at hh
      exact ih (a + 1) h (by simpa using hh)

lemma tickerLoop_congr (f g : ℕ → FetchOutcome) :
    ∀ fuel a, (∀ i, a ≤ i → i < a + fuel → f i = g i) →
      tickerLoop f fuel a = tickerLoop g fuel a := by
  intro fuel
  induction fuel with
  | zero => intro a _; rfl
  | succ n ih =>
    intro a hag
    have hfa : f a = g a := hag a le_rfl (by omega)
    have hrest := ih (a + 1) (fun i h1 h2 => hag i (by omega) (by omega))
    simp only [tickerLoop, hfa, hrest]

/-- C9. Confirmed: the accessor's retry loop consults the fetch oracle
on at most the first 3 attempts (its result depends on nothing beyond
them), sleeps at most 6 seconds in total across the fixed 2-second
inter-attempt delays, and any history it returns non-terminally has more
than one sample. -/
theorem C9_retry_bound (f g : ℕ → FetchOutcome) (hagree : ∀ i, i < 3 → f i = g i) :
    get_ticker_data f = get_ticker_data g ∧
    (get_ticker_data f).2 ≤ 6 ∧
    ∀ h, (get_ticker_data f).1 = some h → 1 < h.length := by
  refine ⟨?_, ?_, ?_⟩
  · exact tickerLoop_congr f g 3 0 (fun i _ h2 => hagree i (by omega))
  · exact tickerLoop_sleep_le f 3 0
  · exact fun h => tickerLoop_some_len f 3 0 h

/-- C9 witness: a fetch that succeeds immediately with a two-sample
history is returned with no sleeping, and the bound theorem applies to
it. -/
theorem C9_retry_bound_witness :
    (∀ i, i < 3 → (fun _ => FetchOutcome.ok [1, 2]) i = (fun _ => FetchOutcome.ok [1, 2]) i) ∧
    (get_ticker_data (fun _ => FetchOutcome.ok [1, 2])).1 = some [1, 2] ∧
    (get_ticker_data (fun _ => FetchOutcome.ok [1, 2])).2 ≤ 6 ∧
    1 < ([1, 2] : List ℚ).length := by
  have h := C9_retry_bound (fun _ => FetchOutcome.ok [1, 2])
    (fun _ => FetchOutcome.ok [1, 2]) (fun i _ => rfl)
  have hres : (get_ticker_data (fun _ => FetchOutcome.ok [1, 2])).1 = some [1, 2] := by
    simp [get_ticker_data, tickerLoop]
  exact ⟨fun i _ => rfl, hres, h.2.1, h.2.2 [1, 2] hres⟩

lemma classifyShort_mem_labels (r a b : Option ℚ) :
    classifyShort r a b ∈
      (["큰 하락 가능", "큰 상승 가능", "하락 가능", "상승 가능", "횡보"] : List String) := by
  unfold classifyShort
  split_ifs <;> simp

lemma classifyLong_mem_labels (mc : ℚ) (a b : Option ℚ) :
    classifyLong mc a b ∈
      (["강한 상승 가능", "강한 하락 가능", "상승 가능", "하락 가능", "횡보"] : List String) := by
  unfold classifyLong
  split_ifs <;> simp

/-- C10. Confirmed: the signal computation is total; the only series on
which its Python body raises, the empty one, is mapped by the blanket
except to the fixed failure record whose label differs from every
computed signal label and from the NO_DATA sentinel; every non-empty
series yields one of the five computed labels per horizon. -/
theorem C10_signals_total :
    calculate_signals [] = ("신호 계산 실패", "신호 계산 실패") ∧
    (∀ cs : List ℚ, cs ≠ [] →
      (calculate_signals cs).1 ∈
        (["큰 하락 가능", "큰 상승 가능", "하락 가능", "상승 가능", "횡보"] : List String) ∧
      (calculate_signals cs).2 ∈
        (["강한 상승 가능", "강한 하락 가능", "상승 가능", "하락 가능", "횡보"] : List String)) ∧
    ("신호 계산 실패" : String) ∉
      (["큰 하락 가능", "큰 상승 가능", "하락 가능", "상승 가능", "횡보",
        "강한 상승 가능", "강한 하락 가능", "데이터 없음"] : List String) := by
  refine ⟨rfl, ?_, by decide⟩
  intro cs hcs
  have hne : ¬ cs.isEmpty := by simpa using hcs
  unfold calculate_signals
  rw [if_neg hne]
  exact ⟨classifyShort_mem_labels _ _ _, classifyLong_mem_labels _ _ _⟩

/-- C10 witness: the empty series gives the failure record and the
one-sample series gives computed labels, as instances of the totality
theorem. -/
theorem C10_signals_total_witness :
    calculate_signals [] = ("신호 계산 실패", "신호 계산 실패") ∧
    ([1] : List ℚ) ≠ [] ∧
    (calculate_signals [1]).1 ∈
      (["큰 하락 가능", "큰 상승 가능", "하락 가능", "상승 가능", "횡보"] : List String) ∧
    (calculate_signals [1]).2 ∈
      (["강한 상승 가능", "강한 하락 가능", "상승 가능", "하락 가능", "횡보"] : List String) := by
  have h := C10_signals_total
  have h1 := h.2.1 [1] (by simp)
  exact ⟨h.1, by simp, h1.1, h1.2⟩

/-- C8. Confirmed: the per-pair evaluation returns the NO_DATA sentinel
record exactly when the resolved history is absent (both the direct
fetch and the cross-rate composition exhausted) or has fewer than 2
samples, and the sentinel label is distinct from every computed signal
label and from the failure label. -/
theorem C8_no_data_sentinel (hist : Option (List ℚ)) :
    (get_forex_data hist = noDataRecord ↔
      hist = none ∨ ∃ cs, hist = some cs ∧ cs.length ≤ 1) ∧
    noDataRecord.signal_short ∉
      (["큰 하락 가능", "큰 상승 가능", "하락 가능", "상승 가능", "횡보",
        "강한 상승 가능", "강한 하락 가능", "신호 계산 실패"] : List String) := by
  refine ⟨?_, by decide⟩
  cases hist with
  | none => simp [get_forex_data]
  | some cs =>
    by_cases hlen : 1 < cs.length
    · have hne : ¬ cs.isEmpty := by
        cases cs with
        | nil => simp at hlen
        | cons a l => simp
      constructor
      · intro habs
        have hsig : (get_forex_data (some cs)).signal_short = (calculate_signals cs).1 := by
          simp [get_forex_data, if_pos hlen]
        have hmem : (calculate_signals cs).1 ∈
            (["큰 하락 가능", "큰 상승 가능", "하락 가능", "상승 가능", "횡보"] : List String) := by
          unfold calculate_signals
          rw [if_neg hne]
          exact classifyShort_mem_labels _ _ _
        rw [habs] at hsig
        rw [← hsig] at hmem
        exact absurd hmem (by decide)
      · rintro (h | ⟨cs', hcs', hlen'⟩)
        · exact nomatch h
        · injection hcs' with hcs'
          subst hcs'
          omega
    · constructor
      · intro _
        exact Or.inr ⟨cs, rfl, by omega⟩
      · intro _
        simp [get_forex_data, if_neg hlen]

/-- C4. The moving-average helper of fx_updater.py refutes the claim's
universal present-value reading: on a series shorter than the window it
returns the empty list, no degraded mean, while the indicator engine's
shrunk-window average of the same series is present. -/
theorem C4_sma_counterexample :
    calculate_moving_average ([1, 2] : List ℚ) 5 = [] ∧
    (calculate_moving_average ([1, 2] : List ℚ) 5).getLast? = none ∧
    maW 5 [1, 2] = some (3 / 2) := by
  refine ⟨by norm_num [calculate_moving_average], ?_, by norm_num [maW, rollMeanLast]⟩
  norm_num [calculate_moving_average]

/-- C4. Corrected: in the indicator engine the simple moving average
over window W of a non-empty series of length L is present and equals
the mean of the last W closes when L is at least W and the mean of all
L closes otherwise (positive whenever all closes are positive); in
fx_updater.py's calculate_moving_average the last rolling mean equals
the mean of the last W closes when L is at least W, but a series
shorter than the window yields no value at all rather than a degraded
mean. -/
theorem C4_sma_amended (W : ℕ) (xs : List ℚ)
    (hW : W ∈ ([5, 20, 60] : List ℕ)) (hne : xs ≠ []) :
    maW W xs = some (if xs.length < W then xs.sum / (xs.length : ℚ)
                     else (xs.drop (xs.length - W)).sum / (W : ℚ)) ∧
    ((∀ x ∈ xs, 0 < x) → ∃ v, maW W xs = some v ∧ 0 < v) ∧
    (calculate_moving_average xs W).getLast? =
      (if xs.length < W then none
       else some ((xs.drop (xs.length - W)).sum / (W : ℚ))) := by
  have hWpos : 0 < W := by
    fin_cases hW <;> norm_num
  have hL : 0 < xs.length := List.length_pos.mpr hne
  have hmain : maW W xs = some (if xs.length < W then xs.sum / (xs.length : ℚ)
      else (xs.drop (xs.length - W)).sum / (W : ℚ)) := by
    unfold maW rollMeanLast
    rw [if_pos ⟨min_le_right W xs.length, lt_min hWpos hL⟩]
    rcases lt_or_ge xs.length W with hlt | hge
    · rw [if_pos hlt, min_eq_right (le_of_lt hlt)]
      simp
    · rw [if_neg (not_lt.mpr hge), min_eq_left hge]
  refine ⟨hmain, ?_, ?_⟩
  · intro hpos
    refine ⟨_, hmain, ?_⟩
    split
    · apply div_pos (List.sum_pos xs hpos hne)
      exact_mod_cast hL
    · rename_i hge
      have hW' : W ≤ xs.length := le_of_not_lt hge
      have hlen : (xs.drop (xs.length - W)).length = W := by
        rw [List.length_drop]; omega
      have hne' : xs.drop (xs.length - W) ≠ [] := by
        intro h
        rw [h] at hlen
        simp at hlen
        omega
      apply div_pos
      · exact List.sum_pos _ (fun x hx => hpos x (List.drop_subset _ _ hx)) hne'
      · exact_mod_cast hWpos
  · unfold calculate_moving_average
    rcases lt_or_ge xs.length W with hlt | hge
    · rw [if_pos hlt, if_pos hlt]
      rfl
    · have hnlt : ¬ xs.length < W := not_lt.mpr hge
      rw [if_neg hnlt, if_neg hnlt]
      rw [List.getLast?_eq_getElem?]
      have hlen : ((List.range (xs.length - W + 1)).map
          (fun i => ((xs.drop i).take W).sum / (W : ℚ))).length = xs.length - W + 1 := by
        simp
      rw [hlen, List.getElem?_map, List.getElem?_range (by omega)]
      have htake : (xs.drop (xs.length - W)).take W = xs.drop (xs.length - W) := by
        apply List.take_of_length_le
        rw [List.length_drop]
        omega
      simp [htake]

/-- C4 witness: window 5 on the two-sample series [1, 2], which is
shorter than the window, instantiates the amended statement. -/
theorem C4_sma_amended_witness :
    (5 ∈ ([5, 20, 60] : List ℕ)) ∧ (([1, 2] : List ℚ) ≠ []) ∧
    maW 5 [1, 2] = some (if ([1, 2] : List ℚ).length < 5
      then ([1, 2] : List ℚ).sum / (([1, 2] : List ℚ).length : ℚ)
      else (([1, 2] : List ℚ).drop (([1, 2] : List ℚ).length - 5)).sum / (5 : ℚ)) ∧
    (∀ x ∈ ([1, 2] : List ℚ), 0 < x) ∧
    (∃ v, maW 5 [1, 2] = some v ∧ 0 < v) ∧
    (calculate_moving_average ([1, 2] : List ℚ) 5).getLast? =
      (if ([1, 2] : List ℚ).length < 5 then none
       else some ((([1, 2] : List ℚ).drop (([1, 2] : List ℚ).length - 5)).sum / (5 : ℚ))) := by
  have h := C4_sma_amended 5 [1, 2] (by simp) (by simp)
  have hpos : ∀ x ∈ ([1, 2] : List ℚ), 0 < x := by norm_num
  exact ⟨by simp, by simp, h.1, hpos, h.2.1 hpos, h.2.2⟩

lemma classifyLong_zero_macd (a b : Option ℚ) : classifyLong 0 a b = "횡보" := by
  norm_num [classifyLong]

/-- C6. On the five-sample series 1..5 the medium and long moving
averages are present, not absent: the dynamically shrunk window makes
them the mean of all five closes, and the long-term signal is FLAT
because the MACD is the literal 0, not because any input is absent. -/
theorem C6_length5_counterexample :
    maW 20 ([1, 2, 3, 4, 5] : List ℚ) = some 3 ∧
    maW 20 ([1, 2, 3, 4, 5] : List ℚ) ≠ none ∧
    maW 60 ([1, 2, 3, 4, 5] : List ℚ) = some 3 ∧
    macdVal ([1, 2, 3, 4, 5] : List ℚ) = 0 ∧
    (calculate_signals ([1, 2, 3, 4, 5] : List ℚ)).2 = "횡보" := by
  have h3 : maW 20 ([1, 2, 3, 4, 5] : List ℚ) = some 3 := by
    norm_num [maW, rollMeanLast]
  refine ⟨h3, by rw [h3]; simp, by norm_num [maW, rollMeanLast],
    by norm_num [macdVal], ?_⟩
  have hmacd : macdVal ([1, 2, 3, 4, 5] : List ℚ) = 0 := by norm_num [macdVal]
  show classifyLong (macdVal [1, 2, 3, 4, 5]) (maW 20 [1, 2, 3, 4, 5]) (maW 60 [1, 2, 3, 4, 5]) = "횡보"
  rw [hmacd, classifyLong_zero_macd]

/-- C6. Corrected: for any series of length 5, all three moving
averages are present and equal to the mean of all five closes (the
shrunk window prevents absence), the MACD is the literal 0 because the
length is below 26, and the long-term signal is FLAT because every
non-FLAT long rule requires a nonzero MACD, not because absent inputs
are treated as FLAT. -/
theorem C6_length5_amended (xs : List ℚ) (h5 : xs.length = 5) :
    maW 5 xs = some (xs.sum / 5) ∧
    maW 20 xs = some (xs.sum / 5) ∧
    maW 60 xs = some (xs.sum / 5) ∧
    macdVal xs = 0 ∧
    (calculate_signals xs).2 = "횡보" := by
  have hma : ∀ W : ℕ, 5 ≤ W → maW W xs = some (xs.sum / 5) := by
    intro W hw
    unfold maW rollMeanLast
    rw [h5, min_eq_right hw]
    norm_num
  have hempty : ¬ xs.isEmpty := by
    cases xs with
    | nil => simp at h5
    | cons a l => simp
  have hmacd : macdVal xs = 0 := by
    unfold macdVal
    rw [h5]
    norm_num
  refine ⟨hma 5 le_rfl, hma 20 (by omega), hma 60 (by omega), hmacd, ?_⟩
  unfold calculate_signals
  rw [if_neg hempty]
  show classifyLong (macdVal xs) (maW 20 xs) (maW 60 xs) = "횡보"
  rw [hmacd, classifyLong_zero_macd]

/-- C6 witness: the series 1..5 instantiates the amended length-5
statement. -/
theorem C6_length5_amended_witness :
    (([1, 2, 3, 4, 5] : List ℚ).length = 5) ∧
    maW 5 ([1, 2, 3, 4, 5] : List ℚ) = some (([1, 2, 3, 4, 5] : List ℚ).sum / 5) ∧
    maW 20 ([1, 2, 3, 4, 5] : List ℚ) = some (([1, 2, 3, 4, 5] : List ℚ).sum / 5) ∧
    maW 60 ([1, 2, 3, 4, 5] : List ℚ) = some (([1, 2, 3, 4, 5] : List ℚ).sum / 5) ∧
    macdVal ([1, 2, 3, 4, 5] : List ℚ) = 0 ∧
    (calculate_signals ([1, 2, 3, 4, 5] : List ℚ)).2 = "횡보" := by
  have h := C6_length5_amended [1, 2, 3, 4, 5] (by simp)
  exact ⟨by simp, h.1, h.2.1, h.2.2.1, h.2.2.2.1, h.2.2.2.2⟩

lemma zipWith_max_nonneg (g : ℚ → ℚ → ℚ) :
    ∀ (as bs : List ℚ), ∀ v ∈ List.zipWith (fun a b => max (g a b) 0) as bs, 0 ≤ v := by
  intro as
  induction as with
  | nil => intro bs v hv; simp at hv
  | cons a as ih =>
    intro bs v hv
    cases bs with
    | nil => simp at hv
    | cons b bs =>
      simp only [List.zipWith_cons_cons, List.mem_cons] at hv
      rcases hv with h | h
      · rw [h]; exact le_max_right _ _
      · exact ih bs v h

lemma lossSeries_nonneg (xs : List ℚ) : ∀ v ∈ lossSeries xs, 0 ≤ v := by
  cases xs with
  | nil => intro v hv; simp [lossSeries] at hv
  | cons x l =>
    intro v hv
    simp only [lossSeries, List.mem_cons] at hv
    rcases hv with h | h
    · rw [h]
    · exact zipWith_max_nonneg (fun a b => a - b) (x :: l) l v h

lemma gainSeries_nonneg (xs : List ℚ) : ∀ v ∈ gainSeries xs, 0 ≤ v := by
  cases xs with
  | nil => intro v hv; simp [gainSeries] at hv
  | cons x l =>
    intro v hv
    simp only [gainSeries, List.mem_cons] at hv
    rcases hv with h | h
    · rw [h]
    · exact zipWith_max_nonneg (fun a b => b - a) (x :: l) l v h

lemma lossSeries_length (xs : List ℚ) : (lossSeries xs).length = xs.length := by
  cases xs with
  | nil => rfl
  | cons x l =>
    simp [lossSeries]

lemma gainSeries_length (xs : List ℚ) : (gainSeries xs).length = xs.length := by
  cases xs with
  | nil => rfl
  | cons x l =>
    simp [gainSeries]

/-- C3. Corrected: for a series with at least 14 samples the RSI is
present and lies in the interval from 0 to 100, and it equals 50
exactly when the loss-average is 0 or the gain-average equals the
loss-average; for a non-empty series shorter than 14 samples the RSI is
NaN, which no interval contains, because the 14-wide rolling windows
are unfilled. -/
theorem C3_rsi_amended :
    (∀ xs : List ℚ, xs.length < 14 → rsiLast xs = none) ∧
    (∀ xs : List ℚ, 14 ≤ xs.length →
      ∃ r gv lv, rollMeanLast 14 (gainSeries xs) = some gv ∧
        rollMeanLast 14 (lossSeries xs) = some lv ∧
        rsiLast xs = some r ∧ 0 ≤ r ∧ r ≤ 100 ∧
        (r = 50 ↔ lv = 0 ∨ gv = lv)) := by
  constructor
  · intro xs hlen
    have hg : rollMeanLast 14 (gainSeries xs) = none := by
      unfold rollMeanLast
      rw [if_neg (by simp [gainSeries_length]; omega)]
    have hl : rollMeanLast 14 (lossSeries xs) = none := by
      unfold rollMeanLast
      rw [if_neg (by simp [lossSeries_length]; omega)]
    unfold rsiLast
    rw [hg, hl]
    simp
  · intro xs hlen
    set gv := ((gainSeries xs).drop ((gainSeries xs).length - 14)).sum / (14 : ℚ) with hgv
    set lv := ((lossSeries xs).drop ((lossSeries xs).length - 14)).sum / (14 : ℚ) with hlv
    have hg : rollMeanLast 14 (gainSeries xs) = some gv := by
      unfold rollMeanLast
      rw [if_pos ⟨by rw [gainSeries_length]; omega, by omega⟩]
      norm_num [hgv]
    have hl : rollMeanLast 14 (lossSeries xs) = some lv := by
      unfold rollMeanLast
      rw [if_pos ⟨by rw [lossSeries_length]; omega, by omega⟩]
      norm_num [hlv]
    have hg0 : 0 ≤ gv := by
      apply div_nonneg _ (by norm_num)
      exact List.sum_nonneg fun v hv =>
        gainSeries_nonneg xs v (List.drop_subset _ _ hv)
    have hl0 : 0 ≤ lv := by
      apply div_nonneg _ (by norm_num)
      exact List.sum_nonneg fun v hv =>
        lossSeries_nonneg xs v (List.drop_subset _ _ hv)
    by_cases hz : lv = 0
    · refine ⟨50, gv, lv, hg, hl, ?_, by norm_num, by norm_num, by simp [hz]⟩
      unfold rsiLast
      rw [hl, hg, if_pos (by rw [hz])]
    · have hlpos : 0 < lv := lt_of_le_of_ne hl0 (Ne.symm hz)
      have hq : 0 ≤ gv / lv := div_nonneg hg0 hl0
      have h1q : (0 : ℚ) < 1 + gv / lv := by linarith
      refine ⟨100 - 100 / (1 + gv / lv), gv, lv, hg, hl, ?_, ?_, ?_, ?_⟩
      · unfold rsiLast
        rw [hl, hg, if_neg (by simp [hz])]
      · have : 100 / (1 + gv / lv) ≤ 100 := by
          apply div_le_self (by norm_num)
          linarith
        linarith
      · have : 0 < 100 / (1 + gv / lv) := div_pos (by norm_num) h1q
        linarith
      · rw [or_iff_right hz]
        constructor
        · intro hr
          have h50 : 100 / (1 + gv / lv) = 50 := by linarith
          have h2 : (100 : ℚ) = 50 * (1 + gv / lv) :=
            (div_eq_iff (ne_of_gt h1q)).mp h50
          have hq1 : gv / lv = 1 := by linarith
          field_simp at hq1
          exact hq1
        · intro hgl
          rw [hgl, div_self hz]
          norm_num

/-- C3. The two-sample series has a NaN RSI, not a value in the
interval from 0 to 100, and the 15-sample alternating series has RSI
exactly 50 while its loss-average is one half, not 0: both directions
of the claimed characterisation fail on the code. -/
theorem C3_rsi_counterexample :
    rsiLast ([1, 2] : List ℚ) = none ∧
    rsiLast ([0, 1, 0, 1, 0, 1, 0, 1, 0, 1, 0, 1, 0, 1, 0] : List ℚ) = some 50 ∧
    rollMeanLast 14 (lossSeries ([0, 1, 0, 1, 0, 1, 0, 1, 0, 1, 0, 1, 0, 1, 0] : List ℚ)) =
      some (1 / 2) := by
  refine ⟨?_, ?_, ?_⟩
  · norm_num [rsiLast, rollMeanLast, gainSeries, lossSeries, List.zipWith]
    exact fun h => nomatch h
  · norm_num [rsiLast, rollMeanLast, gainSeries, lossSeries, List.zipWith]
  · norm_num [rollMeanLast, lossSeries, List.zipWith]

/-- C3 witness: the short series [1, 2] and the constant 14-sample
series instantiate the two parts of the amended statement. -/
theorem C3_rsi_amended_witness :
    rsiLast ([1, 2] : List ℚ) = none ∧
    (∃ r gv lv, rollMeanLast 14 (gainSeries (List.replicate 14 (1 : ℚ))) = some gv ∧
      rollMeanLast 14 (lossSeries (List.replicate 14 (1 : ℚ))) = some lv ∧
      rsiLast (List.replicate 14 (1 : ℚ)) = some r ∧ 0 ≤ r ∧ r ≤ 100 ∧
      (r = 50 ↔ lv = 0 ∨ gv = lv)) :=
  ⟨C3_rsi_amended.1 [1, 2] (by norm_num),
   C3_rsi_amended.2 (List.replicate 14 1) (by simp)⟩

lemma mem_keys_seriesMul (xs ys : List (ℕ × ℚ)) (t : ℕ) :
    t ∈ (seriesMul xs ys).map Prod.fst ↔
      t ∈ xs.map Prod.fst ∨ t ∈ ys.map Prod.fst := by
  induction xs, ys using seriesMul.induct with
  | case1 => simp [seriesMul]
  | case2 y ys ih =>
    rw [seriesMul]
    simp only [List.map_cons, List.mem_cons, List.map_nil, List.not_mem_nil, ih]
    tauto
  | case3 x xs ih =>
    rw [seriesMul]
    simp only [List.map_cons, List.mem_cons, List.map_nil, List.not_mem_nil, ih]
    tauto
  | case4 t1 v1 xs t2 v2 ys hlt ih =>
    rw [seriesMul, if_pos hlt]
    simp only [List.map_cons, List.mem_cons, ih]
    tauto
  | case5 t1 v1 xs t2 v2 ys hnlt hlt ih =>
    rw [seriesMul, if_neg hnlt, if_pos hlt]
    simp only [List.map_cons, List.mem_cons, ih]
    tauto
  | case6 t1 v1 xs t2 v2 ys hnlt hnlt2 ih =>
    have heq : t1 = t2 := by omega
    subst heq
    rw [seriesMul, if_neg hnlt, if_neg hnlt2]
    simp only [List.map_cons, List.mem_cons, ih]
    tauto

lemma sortedKeys_head_lt {p : ℕ × ℚ} {l : List (ℕ × ℚ)} (h : SortedKeys (p :: l))
    {t : ℕ} {q : ℚ} (hm : (t, q) ∈ l) : p.1 < t :=
  (List.pairwise_cons.mp h).1 (t, q) hm

lemma sortedKeys_tail {p : ℕ × ℚ} {l : List (ℕ × ℚ)} (h : SortedKeys (p :: l)) :
    SortedKeys l :=
  (List.pairwise_cons.mp h).2

lemma seriesMul_mem_both :
    ∀ (xs ys : List (ℕ × ℚ)), SortedKeys xs → SortedKeys ys →
      ∀ t b q, (t, b) ∈ xs → (t, q) ∈ ys → (t, some (b * q)) ∈ seriesMul xs ys := by
  intro xs ys
  induction xs, ys using seriesMul.induct with
  | case1 =>
    intro _ _ t b q hb _
    exact absurd hb (List.not_mem_nil _)
  | case2 y ys ih =>
    intro _ _ t b q hb _
    exact absurd hb (List.not_mem_nil _)
  | case3 x xs ih =>
    intro _ _ t b q _ hq
    exact absurd hq (List.not_mem_nil _)
  | case4 t1 v1 xs t2 v2 ys hlt ih =>
    intro hx hy t b q hb hq
    have ht2 : t2 ≤ t := by
      rcases List.mem_cons.mp hq with h | h
      · injection h with h1 _
        omega
      · exact le_of_lt (sortedKeys_head_lt hy h)
    have hb' : (t, b) ∈ xs := by
      rcases List.mem_cons.mp hb with h | h
      · injection h with h1 _
        omega
      · exact h
    rw [seriesMul, if_pos hlt]
    exact List.mem_cons_of_mem _ (ih (sortedKeys_tail hx) hy t b q hb' hq)
  | case5 t1 v1 xs t2 v2 ys hnlt hlt ih =>
    intro hx hy t b q hb hq
    have ht1 : t1 ≤ t := by
      rcases List.mem_cons.mp hb with h | h
      · injection h with h1 _
        omega
      · exact le_of_lt (sortedKeys_head_lt hx h)
    have hq' : (t, q) ∈ ys := by
      rcases List.mem_cons.mp hq with h | h
      · injection h with h1 _
        omega
      · exact h
    rw [seriesMul, if_neg hnlt, if_pos hlt]
    exact List.mem_cons_of_mem _ (ih hx (sortedKeys_tail hy) t b q hb hq')
  | case6 t1 v1 xs t2 v2 ys hnlt hnlt2 ih =>
    intro hx hy t b q hb hq
    have heq : t1 = t2 := by omega
    subst heq
    rw [seriesMul, if_neg hnlt, if_neg hnlt2]
    rcases List.mem_cons.mp hb with h | h
    · injection h with h1 h2
      subst h1
      subst h2
      rcases List.mem_cons.mp hq with h' | h'
      · injection h' with h1' h2'
        subst h2'
        exact List.mem_cons_self _ _
      · exact absurd (sortedKeys_head_lt hy h') (by omega)
    · have htgt : t1 < t := sortedKeys_head_lt hx h
      rcases List.mem_cons.mp hq with h' | h'
      · injection h' with h1' _
        omega
      · exact List.mem_cons_of_mem _
          (ih (sortedKeys_tail hx) (sortedKeys_tail hy) t b q h h')

lemma seriesMul_mem_left :
    ∀ (xs ys : List (ℕ × ℚ)), SortedKeys xs → SortedKeys ys →
      ∀ t b, (t, b) ∈ xs → t ∉ ys.map Prod.fst → (t, none) ∈ seriesMul xs ys := by
  intro xs ys
  induction xs, ys using seriesMul.induct with
  | case1 =>
    intro _ _ t b hb _
    exact absurd hb (List.not_mem_nil _)
  | case2 y ys ih =>
    intro _ _ t b hb _
    exact absurd hb (List.not_mem_nil _)
  | case3 x xs ih =>
    intro hx _ t b hb _
    rw [seriesMul]
    rcases List.mem_cons.mp hb with h | h
    · rw [← h]
      exact List.mem_cons_self _ _
    · exact List.mem_cons_of_mem _
        (ih (sortedKeys_tail hx) List.Pairwise.nil t b h (List.not_mem_nil t))
  | case4 t1 v1 xs t2 v2 ys hlt ih =>
    intro hx hy t b hb hty
    rw [seriesMul, if_pos hlt]
    rcases List.mem_cons.mp hb with h | h
    · injection h with h1 _
      subst h1
      exact List.mem_cons_self _ _
    · exact List.mem_cons_of_mem _ (ih (sortedKeys_tail hx) hy t b h hty)
  | case5 t1 v1 xs t2 v2 ys hnlt hlt ih =>
    intro hx hy t b hb hty
    rw [seriesMul, if_neg hnlt, if_pos hlt]
    have hty' : t ∉ ys.map Prod.fst := by
      intro h
      exact hty (by simp only [List.map_cons, List.mem_cons]; exact Or.inr h)
    exact List.mem_cons_of_mem _ (ih hx (sortedKeys_tail hy) t b hb hty')
  | case6 t1 v1 xs t2 v2 ys hnlt hnlt2 ih =>
    intro hx hy t b hb hty
    have heq : t1 = t2 := by omega
    subst heq
    rw [seriesMul, if_neg hnlt, if_neg hnlt2]
    have hne1 : t ≠ t1 := by
      intro h
      exact hty (by simp [h])
    rcases List.mem_cons.mp hb with h | h
    · injection h with h1 _
      exact absurd h1 hne1
    · have hty' : t ∉ ys.map Prod.fst := by
        intro h'
        exact hty (by simp only [List.map_cons, List.mem_cons]; exact Or.inr h')
      exact List.mem_cons_of_mem _
        (ih (sortedKeys_tail hx) (sortedKeys_tail hy) t b h hty')

lemma seriesMul_mem_right :
    ∀ (xs ys : List (ℕ × ℚ)), SortedKeys xs → SortedKeys ys →
      ∀ t q, (t, q) ∈ ys → t ∉ xs.map Prod.fst → (t, none) ∈ seriesMul xs ys := by
  intro xs ys
  induction xs, ys using seriesMul.induct with
  | case1 =>
    intro _ _ t q hq _
    exact absurd hq (List.not_mem_nil _)
  | case2 y ys ih =>
    intro _ hy t q hq _
    rw [seriesMul]
    rcases List.mem_cons.mp hq with h | h
    · rw [← h]
      exact List.mem_cons_self _ _
    · exact List.mem_cons_of_mem _
        (ih List.Pairwise.nil (sortedKeys_tail hy) t q h (List.not_mem_nil t))
  | case3 x xs ih =>
    intro _ _ t q hq _
    exact absurd hq (List.not_mem_nil _)
  | case4 t1 v1 xs t2 v2 ys hlt ih =>
    intro hx hy t q hq htx
    rw [seriesMul, if_pos hlt]
    have htx' : t ∉ xs.map Prod.fst := by
      intro h
      exact htx (by simp only [List.map_cons, List.mem_cons]; exact Or.inr h)
    exact List.mem_cons_of_mem _ (ih (sortedKeys_tail hx) hy t q hq htx')
  | case5 t1 v1 xs t2 v2 ys hnlt hlt ih =>
    intro hx hy t q hq htx
    rw [seriesMul, if_neg hnlt, if_pos hlt]
    rcases List.mem_cons.mp hq with h | h
    · injection h with h1 _
      subst h1
      exact List.mem_cons_self _ _
    · exact List.mem_cons_of_mem _ (ih hx (sortedKeys_tail hy) t q h htx)
  | case6 t1 v1 xs t2 v2 ys hnlt hnlt2 ih =>
    intro hx hy t q hq htx
    have heq : t1 = t2 := by omega
    subst heq
    rw [seriesMul, if_neg hnlt, if_neg hnlt2]
    have hne1 : t ≠ t1 := by
      intro h
      exact htx (by simp [h])
    rcases List.mem_cons.mp hq with h | h
    · injection h with h1 _
      exact absurd h1 hne1
    · have htx' : t ∉ xs.map Prod.fst := by
        intro h'
        exact htx (by simp only [List.map_cons, List.mem_cons]; exact Or.inr h')
      exact List.mem_cons_of_mem _
        (ih (sortedKeys_tail hx) (sortedKeys_tail hy) t q h htx')

lemma invertCloses_keys (ys : List (ℕ × ℚ)) :
    (invertCloses ys).map Prod.fst = ys.map Prod.fst := by
  simp [invertCloses, List.map_map]

lemma invertCloses_sorted {ys : List (ℕ × ℚ)} (h : SortedKeys ys) :
    SortedKeys (invertCloses ys) := by
  unfold SortedKeys invertCloses
  rw [List.pairwise_map]
  exact h

lemma invertCloses_mem {ys : List (ℕ × ℚ)} {t : ℕ} {q : ℚ} (h : (t, q) ∈ ys) :
    (t, q⁻¹) ∈ invertCloses ys :=
  List.mem_map_of_mem (fun p => (p.1, p.2⁻¹)) h

/-- C1. The cross-rate composition indexes the composed series on the
union, not the intersection, of the two legs' timestamps: composing a
one-sample base leg with a two-sample quote leg yields a series that
contains timestamp 1, which the base leg does not have and which
therefore is outside the intersection. -/
theorem C1_cross_rate_counterexample :
    (1 : ℕ) ∈ (calculate_cross_rate [((0 : ℕ), (2 : ℚ))]
      (invertCloses [(0, 3), (1, 5)])).map Prod.fst ∧
    (1 : ℕ) ∉ ([((0 : ℕ), (2 : ℚ))].map Prod.fst) := by
  constructor
  · norm_num [calculate_cross_rate, seriesMul, invertCloses]
  · norm_num

/-- C1. Corrected: the composed series contains exactly the timestamps
in the union of the two legs' timestamps; at a timestamp present in
both legs the composed close equals the base-leg close divided by the
quote-leg close in quote/REF orientation (the code holds the inverted
leg and multiplies), and at a timestamp present in only one leg the
composed close is NaN rather than the sample being dropped. -/
theorem C1_cross_rate_amended (base_hist quote_qr : List (ℕ × ℚ))
    (hb : SortedKeys base_hist) (hq : SortedKeys quote_qr) :
    (∀ t, t ∈ (calculate_cross_rate base_hist (invertCloses quote_qr)).map Prod.fst ↔
       t ∈ base_hist.map Prod.fst ∨ t ∈ quote_qr.map Prod.fst) ∧
    (∀ t b q, (t, b) ∈ base_hist → (t, q) ∈ quote_qr →
       (t, some (b / q)) ∈ calculate_cross_rate base_hist (invertCloses quote_qr)) ∧
    (∀ t b, (t, b) ∈ base_hist → t ∉ quote_qr.map Prod.fst →
       (t, none) ∈ calculate_cross_rate base_hist (invertCloses quote_qr)) ∧
    (∀ t q, (t, q) ∈ quote_qr → t ∉ base_hist.map Prod.fst →
       (t, none) ∈ calculate_cross_rate base_hist (invertCloses quote_qr)) := by
  have hq' : SortedKeys (invertCloses quote_qr) := invertCloses_sorted hq
  refine ⟨?_, ?_, ?_, ?_⟩
  · intro t
    rw [calculate_cross_rate, mem_keys_seriesMul, invertCloses_keys]
  · intro t b q htb htq
    have := seriesMul_mem_both base_hist (invertCloses quote_qr) hb hq'
      t b q⁻¹ htb (invertCloses_mem htq)
    rwa [← div_eq_mul_inv] at this
  · intro t b htb hty
    exact seriesMul_mem_left base_hist (invertCloses quote_qr) hb hq' t b htb
      (by rwa [invertCloses_keys])
  · intro t q htq htx
    exact seriesMul_mem_right base_hist (invertCloses quote_qr) hb hq'
      t q⁻¹ (invertCloses_mem htq) htx

/-- C1 witness: two concrete sorted legs with partially overlapping
timestamps instantiate every clause of the amended statement. -/
theorem C1_cross_rate_amended_witness :
    SortedKeys [((0 : ℕ), (2 : ℚ)), (2, 4)] ∧
    SortedKeys [((0 : ℕ), (4 : ℚ)), (1, 5)] ∧
    ((0 : ℕ), some ((2 : ℚ) / 4)) ∈
      calculate_cross_rate [((0 : ℕ), (2 : ℚ)), (2, 4)]
        (invertCloses [(0, 4), (1, 5)]) ∧
    ((2 : ℕ), (none : Option ℚ)) ∈
      calculate_cross_rate [((0 : ℕ), (2 : ℚ)), (2, 4)]
        (invertCloses [(0, 4), (1, 5)]) ∧
    ((1 : ℕ), (none : Option ℚ)) ∈
      calculate_cross_rate [((0 : ℕ), (2 : ℚ)), (2, 4)]
        (invertCloses [(0, 4), (1, 5)]) ∧
    ((1 : ℕ) ∈ (calculate_cross_rate [((0 : ℕ), (2 : ℚ)), (2, 4)]
        (invertCloses [(0, 4), (1, 5)])).map Prod.fst ↔
      (1 : ℕ) ∈ ([((0 : ℕ), (2 : ℚ)), (2, 4)].map Prod.fst) ∨
      (1 : ℕ) ∈ ([((0 : ℕ), (4 : ℚ)), (1, 5)].map Prod.fst)) := by
  have hb : SortedKeys [((0 : ℕ), (2 : ℚ)), (2, 4)] := by
    norm_num [SortedKeys]
  have hq : SortedKeys [((0 : ℕ), (4 : ℚ)), (1, 5)] := by
    norm_num [SortedKeys]
  have h := C1_cross_rate_amended [(0, 2), (2, 4)] [(0, 4), (1, 5)] hb hq
  refine ⟨hb, hq, ?_, ?_, ?_, h.1 1⟩
  · exact h.2.1 0 2 4 (by norm_num) (by norm_num)
  · exact h.2.2.1 2 4 (by norm_num) (by norm_num)
  · exact h.2.2.2 1 5 (by norm_num) (by norm_num)

lemma roundHalfEven_ofInt (m : ℤ) : roundHalfEven (m : ℚ) = m := by
  unfold roundHalfEven
  rw [Int.floor_intCast, if_pos (by norm_num)]

lemma pyRound_hundred : pyRound 100 1 = 100 := by
  have h : ((1000 : ℤ) : ℚ) = (100 : ℚ) * 10 ^ 1 := by norm_num
  unfold pyRound
  rw [← h, roundHalfEven_ofInt]
  norm_num

lemma negIdx_reverse (xs : List ℚ) (k : ℕ) (h1 : 0 < k) (h2 : k ≤ xs.length) :
    negIdx xs.reverse k = xs[k - 1]? := by
  unfold negIdx
  rw [List.length_reverse, if_pos ⟨h1, h2⟩,
    List.getElem?_reverse (by omega : xs.length - k < xs.length)]
  congr 1
  omega

lemma calculate_trend_prediction_none {cs : List ℚ} (h : negIdx cs 60 = none) :
    calculate_trend_prediction cs = none := by
  unfold calculate_trend_prediction
  rw [h]
  rcases negIdx cs 1 with _ | a <;> rcases negIdx cs 10 with _ | b <;> rfl

/-- C7. Corrected: the trend computation raises on any history shorter
than 60 samples (the closes[-60] access), and the caller's blanket
except then reports BOTH horizons unknown with confidence 0, so the
horizons are not independent and the actual thresholds are 60 and 10,
not 61 and 11; with at least 60 samples the short horizon is computed,
but because the caller sorts the history newest first before
predicting, it compares the OLDEST close against the close 9 samples
after it (the 10th-oldest), not the latest close against the close 10
samples back, with thresholds of 1 percent and confidence
round(min(abs(change) * 10, 100), 1). -/
theorem C7_trend_amended :
    (∀ xs : List ℚ, xs.length < 60 → get_forex_history_trend xs = unknownTrend) ∧
    (∀ (xs : List ℚ) (a b : ℚ), 60 ≤ xs.length → xs[0]? = some a → xs[9]? = some b →
      b ≠ 0 →
      (get_forex_history_trend xs).short_term =
        { direction := if 1 < (a - b) / b * 100 then "상승"
                       else if (a - b) / b * 100 < -1 then "하락" else "횡보",
          confidence := pyRound (min (|(a - b) / b * 100| * 10) 100) 1 }) := by
  constructor
  · intro xs hlen
    have h60 : negIdx xs.reverse 60 = none := by
      unfold negIdx
      rw [List.length_reverse, if_neg (by omega)]
    unfold get_forex_history_trend
    rw [calculate_trend_prediction_none h60]
    rfl
  · intro xs a b hlen h0 h9 hb0
    have h1 : negIdx xs.reverse 1 = some a := by
      rw [negIdx_reverse xs 1 (by omega) (by omega)]
      simpa using h0
    have h10 : negIdx xs.reverse 10 = some b := by
      rw [negIdx_reverse xs 10 (by omega) (by omega)]
      simpa using h9
    have h59 : 59 < xs.length := by omega
    have h60 : negIdx xs.reverse 60 = some (xs.get ⟨59, h59⟩) := by
      rw [negIdx_reverse xs 60 (by omega) (by omega)]
      simp [List.getElem?_eq_getElem h59]
    unfold get_forex_history_trend calculate_trend_prediction
    rw [h1, h10, h60]
    rfl

/-- C7 witness: a 59-sample history leaves both horizons unknown, and
the constant 60-sample history instantiates the computed short-horizon
formula. -/
theorem C7_trend_amended_witness :
    get_forex_history_trend (List.replicate 59 (100 : ℚ)) = unknownTrend ∧
    (List.replicate 60 (100 : ℚ))[0]? = some 100 ∧
    (List.replicate 60 (100 : ℚ))[9]? = some 100 ∧
    (get_forex_history_trend (List.replicate 60 (100 : ℚ))).short_term =
      { direction := if 1 < ((100 : ℚ) - 100) / 100 * 100 then "상승"
                     else if ((100 : ℚ) - 100) / 100 * 100 < -1 then "하락" else "횡보",
        confidence := pyRound (min (|((100 : ℚ) - 100) / 100 * 100| * 10) 100) 1 } := by
  refine ⟨C7_trend_amended.1 _ (by simp), by simp, by simp, ?_⟩
  exact C7_trend_amended.2 (List.replicate 60 100) 100 100 (by simp) (by simp)
    (by simp) (by norm_num)

/-- C7. A 60-sample ascending history refutes the claim: the long
horizon is computed (direction DOWN, not UNKNOWN) although only 60
samples exist, and the short horizon reports DOWN with confidence 100
although the latest close equals the close ten samples back, because
the predictor runs on the newest-first ordering and therefore measures
the change at the oldest end of the window. -/
theorem C7_trend_counterexample :
    ((100 : ℚ) :: (List.replicate 9 200 ++ List.replicate 50 150)).length = 60 ∧
    get_forex_history_trend ((100 : ℚ) :: (List.replicate 9 200 ++ List.replicate 50 150)) =
      { short_term := { direction := "하락", confidence := 100 },
        long_term := { direction := "하락", confidence := 100 } } ∧
    ((100 : ℚ) :: (List.replicate 9 200 ++ List.replicate 50 150))[59]? = some 150 ∧
    ((100 : ℚ) :: (List.replicate 9 200 ++ List.replicate 50 150))[49]? = some 150 := by
  have hlen : ((100 : ℚ) :: (List.replicate 9 200 ++ List.replicate 50 150)).length = 60 := by
    simp
  have h1 : negIdx ((100 : ℚ) :: (List.replicate 9 200 ++ List.replicate 50 150)).reverse 1 =
      some 100 := by
    rw [negIdx_reverse _ 1 (by omega) (by rw [hlen]; omega)]
    rfl
  have h10 : negIdx ((100 : ℚ) :: (List.replicate 9 200 ++ List.replicate 50 150)).reverse 10 =
      some 200 := by
    rw [negIdx_reverse _ 10 (by omega) (by rw [hlen]; omega)]
    simp [List.getElem?_append, List.getElem?_replicate]
  have h60 : negIdx ((100 : ℚ) :: (List.replicate 9 200 ++ List.replicate 50 150)).reverse 60 =
      some 150 := by
    rw [negIdx_reverse _ 60 (by omega) (by rw [hlen])]
    simp [List.getElem?_append_right, List.getElem?_replicate]
  refine ⟨hlen, ?_, ?_, ?_⟩
  · unfold get_forex_history_trend calculate_trend_prediction
    rw [h1, h10, h60]
    simp only [Option.getD_some]
    have habs : |(100 : ℚ) / 3| = 100 / 3 := abs_of_pos (by norm_num)
    norm_num [min_def, pyRound_hundred, habs]
  · simp [List.getElem?_append_right, List.getElem?_replicate]
  · simp [List.getElem?_append_right, List.getElem?_replicate]
